import Mathlib

/- Verification development for the biomedical entity linking module
   (flair/models/biomedical_entity_linking.py).

   Shallow embedding conventions:
   - numpy/torch score matrices are lists of rows over the rationals;
   - python strings are lists of characters;
   - code that can raise returns Option (none models a raised exception);
   - the neural encoders are opaque and appear as function parameters;
   - np.argpartition leaves the selected block in an unspecified internal
     order, and np.argsort and torch.sort are unstable on ties; the
     embedding instantiates each of them with a deterministic total order
     (value order, ties by ascending position), which is one legal
     outcome of the underspecified primitive. -/

namespace BioNel

/-! ## Sorting primitives used to model np.argsort, np.sort and torch.sort -/

/-- Comparison of (position, value) pairs: ascending value, ties by ascending position. -/
def ascLe (p q : Nat × ℚ) : Bool :=
  if p.2 < q.2 then true
  else if q.2 < p.2 then false
  else decide (p.1 ≤ q.1)

/-- Comparison of (position, value) pairs: descending value, ties by ascending position. -/
def descLe (p q : Nat × ℚ) : Bool :=
  if q.2 < p.2 then true
  else if p.2 < q.2 then false
  else decide (p.1 ≤ q.1)

/-- Comparison of plain values, ascending. -/
def valLe (x y : ℚ) : Bool := decide (x ≤ y)

/-- Insert an element into a list, keeping it ordered by `le`. -/
def insertBy (le : α → α → Bool) (x : α) : List α → List α
  | [] => [x]
  | y :: ys => if le x y then x :: y :: ys else y :: insertBy le x ys

/-- Insertion sort by a boolean comparison. -/
def sortBy (le : α → α → Bool) : List α → List α
  | [] => []
  | x :: xs => insertBy le x (sortBy le xs)

/-- Model of np.argsort on one row (ascending): positions sorted by value. -/
def argsortAsc (row : List ℚ) : List Nat :=
  (sortBy ascLe row.enum).map (·.1)

/-- Model of np.argsort(-row) on one row: positions sorted by descending value. -/
def argsortDesc (row : List ℚ) : List Nat :=
  (sortBy descLe row.enum).map (·.1)

/-- Model of np.sort on one row: values in ascending order. -/
def sortValsAsc (row : List ℚ) : List ℚ :=
  sortBy valLe row

/-! ## BioSyn.retrieve_candidate / SapBert.retrieve_candidate (identical code) -/

/-- Start position of the numpy slice `arr[a:]` over a row of length `d`:
    a negative start counts from the end and is clipped at 0, a non-negative
    start is clipped at `d`.  Note `arr[-topk:]` with `topk = 0` yields the
    whole row, since `-0 = 0`. -/
def numpySliceStart (d : Nat) (a : Int) : Nat :=
  if a < 0 then (a + d).toNat else if a.toNat ≤ d then a.toNat else d

/-- One row of retrieve_candidate (the per-row effect of the 2-d numpy code):
    `np.argpartition(score_matrix, -topk)[:, -topk:]` selects the block of
    top columns (raising if the kth index `-topk` is outside `[-d, d)`),
    `np.argsort(-topk_score_matrix)` reorders the selected positions by
    descending score, and the returned scores are `np.sort(topk_score_matrix)`,
    i.e. the selected scores in ASCENDING order.  The argpartition outcome is
    modelled as the fully ascending index order, a legal instance of its
    contract. -/
def retrieve_candidate_row (row : List ℚ) (topk : Int) : Option (List Nat × List ℚ) :=
  let d := row.length
  if -topk < -(d : Int) ∨ (d : Int) ≤ -topk then none
  else
    let part := argsortAsc row
    let tk_idxs := part.drop (numpySliceStart d (-topk))
    let tk_scores := tk_idxs.map (fun i => row.getD i 0)
    let topk_argidxs := argsortDesc tk_scores
    let topk_scores := sortValsAsc tk_scores
    let topk_idxs := topk_argidxs.map (fun j => tk_idxs.getD j 0)
    some (topk_idxs, topk_scores)

/-- Apply a fallible per-row function to every row; any failure fails the
    whole call (numpy raises once for the whole 2-d operation). -/
def mapRows (f : α → Option β) : List α → Option (List β)
  | [] => some []
  | r :: rs =>
    match f r, mapRows f rs with
    | some b, some bs => some (b :: bs)
    | _, _ => none

/-- BioSyn.retrieve_candidate and SapBert.retrieve_candidate: per query row,
    the pair (topk indices in descending score order, topk scores as returned
    by np.sort, i.e. ascending). -/
def retrieve_candidate (score_matrix : List (List ℚ)) (topk : Int) :
    Option (List (List Nat × List ℚ)) :=
  mapRows (retrieve_candidate_row · topk) score_matrix

/-! ## SapBert.retrieve_candidate_cuda -/

/-- Structured recursion worker for `chunked`: the fuel only justifies
    termination and is always at least the length of the list. -/
def chunkedFuel (batch : Nat) : Nat → List α → List (List α)
  | _, [] => []
  | 0, _ :: _ => []
  | f + 1, x :: xs => (x :: xs.take (batch - 1)) :: chunkedFuel batch f (xs.drop (batch - 1))

/-- Row chunks of size `batch` in original order, modelling the loop
    `for i in np.arange(0, n, batch_size)` with slices `i : i + batch_size`
    (meaningful for `batch` at least 1, as at every call site). -/
def chunked (batch : Nat) (l : List α) : List (List α) :=
  chunkedFuel batch l.length l

/-- One row of `torch.sort(chunk, dim=1, descending=True)` followed by the
    column slices `[:, :topk]`: indices and values of the row sorted by
    descending value, truncated to the first `topk`. -/
def cudaTopkRow (topk : Nat) (row : List ℚ) : List Nat × List ℚ :=
  let pairs := sortBy descLe row.enum
  ((pairs.map (·.1)).take topk, (pairs.map (·.2)).take topk)

/-- SapBert.retrieve_candidate_cuda: process the query rows in chunks of
    `batch_size` rows, take the per-chunk descending sort truncated to
    `topk`, and concatenate the chunk results in original order. -/
def retrieve_candidate_cuda (score_matrix : List (List ℚ)) (topk : Nat)
    (batch_size : Nat) : List (List Nat × List ℚ) :=
  ((chunked batch_size score_matrix).map (fun chunk => chunk.map (cudaTopkRow topk))).flatten

/-! ## Score matrices and hybrid fusion (BioSyn.get_score_matrix, BioSyn.get_predictions) -/

/-- Dot product of two vectors. -/
def dot (u v : List ℚ) : ℚ := (List.zipWith (· * ·) u v).sum

/-- BioSyn.get_score_matrix: `np.matmul(query_embeds, dict_embeds.T)`;
    entry (i, j) is the dot product of query row i with dictionary row j. -/
def get_score_matrix (query_embeds dict_embeds : List (List ℚ)) : List (List ℚ) :=
  query_embeds.map (fun q => dict_embeds.map (dot q))

/-- Elementwise fusion from BioSyn.get_predictions:
    `sparse_weight * sparse_score_matrix + dense_score_matrix`. -/
def hybridScoreMatrix (sparse_weight : ℚ)
    (sparse_score_matrix dense_score_matrix : List (List ℚ)) : List (List ℚ) :=
  List.zipWith (List.zipWith (fun s d => sparse_weight * s + d))
    sparse_score_matrix dense_score_matrix

/-- Elementwise vector difference, modelling numpy row - vector broadcasting. -/
def vecSub (u v : List ℚ) : List ℚ := List.zipWith (· - ·) u v

/-- Score-matrix pipeline of BioSyn.get_predictions, with the opaque encoders
    applied outside: sparse and dense score matrices from the mention
    embeddings, fused with the learned sparse weight.  The parameter
    tgt_space_mean_vec is accepted by the source function but never read. -/
def biosyn_predictions_score_matrix
    (mention_sparse_embeds mention_dense_embeds : List (List ℚ))
    (dict_sparse_embeds dict_dense_embeds : List (List ℚ))
    (sparse_weight : ℚ) (tgt_space_mean_vec : Option (List ℚ)) : List (List ℚ) :=
  let _ := tgt_space_mean_vec
  let sparse_score_matrix := get_score_matrix mention_sparse_embeds dict_sparse_embeds
  let dense_score_matrix := get_score_matrix mention_dense_embeds dict_dense_embeds
  hybridScoreMatrix sparse_weight sparse_score_matrix dense_score_matrix

/-- Score-matrix pipeline of SapBert.get_predictions: the mention embedding
    has tgt_space_mean_vec subtracted when present, then the score matrix is
    the plain matmul (get_score_matrix defaults: cosine and normalise False). -/
def sapbert_predictions_score_matrix
    (mention_dense_embeds dict_dense_embeds : List (List ℚ))
    (tgt_space_mean_vec : Option (List ℚ)) : List (List ℚ) :=
  let centered :=
    match tgt_space_mean_vec with
    | some v => mention_dense_embeds.map (fun row => vecSub row v)
    | none => mention_dense_embeds
  get_score_matrix centered dict_dense_embeds

/-! ## SapBert.get_score_matrix with min-max normalisation -/

/-- Global minimum of a matrix (`score_matrix.min()`); none on an empty
    matrix, where numpy raises. -/
def matrixMin (m : List (List ℚ)) : Option ℚ :=
  match m.flatten with
  | [] => none
  | x :: xs => some (xs.foldl min x)

/-- Global maximum of a matrix (`score_matrix.max()`); none on an empty
    matrix, where numpy raises. -/
def matrixMax (m : List (List ℚ)) : Option ℚ :=
  match m.flatten with
  | [] => none
  | x :: xs => some (xs.foldl max x)

/-- SapBert.get_score_matrix with cosine fixed to False (as at every call
    site of the module): raw dot-product scores, then, when `normalise`,
    `(score_matrix - min) / (max - min)` with the division not guarded in
    the source; the embedding returns none exactly when that division has a
    zero denominator (the float code would produce undefined NaN values). -/
def sapbert_get_score_matrix (query_embeds dict_embeds : List (List ℚ))
    (normalise : Bool) : Option (List (List ℚ)) :=
  let score_matrix := get_score_matrix query_embeds dict_embeds
  if normalise then
    (matrixMin score_matrix).bind (fun mn =>
      (matrixMax score_matrix).bind (fun mx =>
        if mx - mn = 0 then none
        else some (score_matrix.map (List.map (fun x => (x - mn) / (mx - mn))))))
  else some score_matrix

/-! ## DictionaryDataset.load_data -/

/-- Whitespace test matching python str.strip. -/
def isSpaceChar (c : Char) : Bool :=
  c = ' ' ∨ c = '\t' ∨ c = '\n' ∨ c = '\r' ∨ c = '\x0b' ∨ c = '\x0c'

/-- Python str.strip on a line of characters. -/
def trimChars (l : List Char) : List Char :=
  ((l.dropWhile isSpaceChar).reverse.dropWhile isSpaceChar).reverse

/-- Python str.split("||"): split at every non-overlapping occurrence of
    the two-character separator, scanning left to right. -/
def splitPipes : List Char → List (List Char)
  | [] => [[]]
  | [c] => [[c]]
  | a :: b :: rest =>
    if a = '|' ∧ b = '|' then [] :: splitPipes rest
    else
      match splitPipes (b :: rest) with
      | [] => [[a]]
      | h :: t => (a :: h) :: t

/-- True when the line contains the separator `||` somewhere. -/
def containsSep : List Char → Bool
  | [] => false
  | [_] => false
  | a :: b :: rest => (a = '|' ∧ b = '|') || containsSep (b :: rest)

/-- One non-blank line of the dictionary file: `cui, name = line.split("||")`
    (raising unless the split yields exactly two parts), then the name is
    lowercased and the entry `(name, cui)` appended. -/
def parseEntry (l : List Char) : Option (List Char × List Char) :=
  match splitPipes l with
  | [cui, name] => some (name.map Char.toLower, cui)
  | _ => none

/-- DictionaryDataset.load_data over the lines of the file: strip each line,
    skip blank lines, parse the rest in order; any malformed line raises
    (none). -/
def load_data : List (List Char) → Option (List (List Char × List Char))
  | [] => some []
  | line :: rest =>
    let l := trimChars line
    if l = [] then load_data rest
    else
      match parseEntry l with
      | some e => (load_data rest).map (e :: ·)
      | none => none

/-! ## HunNen._cache_or_load_dictionary -/

/-- The pickled cache payload: exactly the three keys written by the source
    (`dictionary`, `dict_sparse_embeds`, `dict_dense_embeds`). -/
structure CachedDictionaryEntry where
  dictionary : List (List Char × List Char)
  dict_sparse_embeds : List (List ℚ)
  dict_dense_embeds : List (List ℚ)
deriving DecidableEq

/-- The tuple returned by _cache_or_load_dictionary, together with the
    entry written to the cache file on a miss (none on a hit: nothing is
    written). -/
structure CacheOrLoadResult where
  dictionary : List (List Char × List Char)
  dict_sparse_embeds : List (List ℚ)
  dict_dense_embeds : List (List ℚ)
  tgt_space_mean_vec : Option (List ℚ)
  persisted : Option CachedDictionaryEntry
deriving DecidableEq

/-- Elementwise vector sum. -/
def vecAdd (u v : List ℚ) : List ℚ := List.zipWith (· + ·) u v

/-- Columnwise sum of a matrix. -/
def columnSum : List (List ℚ) → List ℚ
  | [] => []
  | r :: rs => rs.foldl vecAdd r

/-- Columnwise mean (`dict_dense_embeds.mean(0)`). -/
def columnMean (m : List (List ℚ)) : List ℚ :=
  (columnSum m).map (fun x => x / (m.length : ℚ))

/-- HunNen._cache_or_load_dictionary, with the file system and encoders
    abstracted: `cached` is the content of the cache file when it exists,
    `dictLines` the lines of the dictionary file, and the two embed
    functions the opaque encoders.  On a hit the three stored fields are
    returned and tgt_space_mean_vec stays None; on a miss the dictionary is
    loaded (none models a raised load error), names are embedded, the dense
    matrix is mean-centered when requested, and exactly the three fields
    are pickled. -/
def cache_or_load_dictionary (cached : Option CachedDictionaryEntry)
    (dictLines : List (List Char))
    (embed_sparse embed_dense : List (List Char) → List (List ℚ))
    (mean_centering : Bool) : Option CacheOrLoadResult :=
  match cached with
  | some c =>
    some ⟨c.dictionary, c.dict_sparse_embeds, c.dict_dense_embeds, none, none⟩
  | none =>
    (load_data dictLines).map (fun dictionary =>
      let dictionary_names := dictionary.map (·.1)
      let dict_sparse_embeds := embed_sparse dictionary_names
      let dict_dense_embeds := embed_dense dictionary_names
      let centered :=
        if mean_centering then
          let v := columnMean dict_dense_embeds
          (dict_dense_embeds.map (fun row => vecSub row v), some v)
        else (dict_dense_embeds, none)
      ⟨dictionary, dict_sparse_embeds, centered.1, centered.2,
        some ⟨dictionary, dict_sparse_embeds, centered.1⟩⟩)

/-- BioSyn.embed_sparse: the names are processed by the sparse encoder in
    batches of 1024 and the batch outputs concatenated in order; the encoder
    itself is opaque. -/
def biosyn_embed_sparse (sparse_encoder : List (List Char) → List (List ℚ))
    (names : List (List Char)) : List (List ℚ) :=
  ((chunked 1024 names).map sparse_encoder).flatten

/-- BioSyn.embed_dense: the tokenized names go through the dense encoder via
    a non-shuffling DataLoader with batch size 1024 and the batch outputs are
    concatenated in order; tokenizer and encoder are opaque. -/
def biosyn_embed_dense (encoder : List (List Char) → List (List ℚ))
    (names : List (List Char)) : List (List ℚ) :=
  ((chunked 1024 names).map encoder).flatten

/-! ## HunNen.load strategy dispatch -/

/-- The two wrapper classes the loader can construct. -/
inductive ModelStrategy where
  | bioSyn : ModelStrategy
  | sapBert : ModelStrategy
deriving DecidableEq

/-- Observable outcome of the model_type dispatch in HunNen.load: a
    strategy is constructed, or the function prints a message and returns
    None, or an exception is raised (vocabulary needed to state the claim;
    the source never raises here). -/
inductive LoadDispatch where
  | strategy : ModelStrategy → LoadDispatch
  | returnsNone : LoadDispatch
  | raisesError : LoadDispatch
deriving DecidableEq

/-- Python str.lower on a list of characters. -/
def lowerChars (l : List Char) : List Char := l.map Char.toLower

/-- The model_type dispatch of HunNen.load: compare model_type.lower()
    against the two supported names; any other value hits the else branch,
    which prints a message and returns None. -/
def hunNenLoadDispatch (model_type : List Char) : LoadDispatch :=
  if lowerChars model_type = "biosyn".toList then .strategy .bioSyn
  else if lowerChars model_type = "sapbert".toList then .strategy .sapBert
  else .returnsNone

/-! # Theorems -/

/-! ## Helper lemmas -/

theorem length_insertBy (le : α → α → Bool) (x : α) (l : List α) :
    (insertBy le x l).length = l.length + 1 := by
  induction l with
  | nil => rfl
  | cons y ys ih => rw [insertBy]; split <;> simp [ih]

theorem length_sortBy (le : α → α → Bool) (l : List α) :
    (sortBy le l).length = l.length := by
  induction l with
  | nil => rfl
  | cons x xs ih => rw [sortBy, length_insertBy, ih, List.length_cons]

theorem length_argsortAsc (row : List ℚ) : (argsortAsc row).length = row.length := by
  simp [argsortAsc, length_sortBy]

theorem length_argsortDesc (row : List ℚ) : (argsortDesc row).length = row.length := by
  simp [argsortDesc, length_sortBy]

theorem length_sortValsAsc (row : List ℚ) : (sortValsAsc row).length = row.length := by
  simp [sortValsAsc, length_sortBy]

theorem mapRows_none (f : α → Option β) (l : List α) (a : α) (hmem : a ∈ l)
    (hf : f a = none) : mapRows f l = none := by
  induction l with
  | nil => cases hmem
  | cons x xs ih =>
    rcases List.mem_cons.mp hmem with rfl | h2
    · rw [mapRows, hf]
    · rw [mapRows, ih h2]; cases f x <;> rfl

theorem mapRows_some (f : α → Option β) (l : List α) (P : β → Prop)
    (h : ∀ a ∈ l, ∃ b, f a = some b ∧ P b) :
    ∃ bs, mapRows f l = some bs ∧ bs.length = l.length ∧ ∀ b ∈ bs, P b := by
  induction l with
  | nil => exact ⟨[], rfl, rfl, by simp⟩
  | cons x xs ih =>
    obtain ⟨b, hfb, hPb⟩ := h x (.head _)
    obtain ⟨bs, hbs, hlen, hP⟩ := ih (fun a ha => h a (.tail _ ha))
    refine ⟨b :: bs, by rw [mapRows, hfb, hbs], by simp [hlen], ?_⟩
    intro c hc
    rcases List.mem_cons.mp hc with rfl | h2
    · exact hPb
    · exact hP c h2

theorem chunkedFuel_flatten (b : Nat) :
    ∀ (f : Nat) (l : List α), l.length ≤ f → (chunkedFuel b f l).flatten = l := by
  intro f
  induction f with
  | zero =>
    intro l h
    cases l with
    | nil => rfl
    | cons x xs => simp at h
  | succ f ih =>
    intro l h
    cases l with
    | nil => rfl
    | cons x xs =>
      rw [chunkedFuel]
      simp only [List.flatten_cons]
      simp only [List.length_cons] at h
      rw [ih (xs.drop (b - 1)) (by simp only [List.length_drop]; omega)]
      simp [List.cons_append, List.take_append_drop]

theorem chunked_flatten (b : Nat) (l : List α) : (chunked b l).flatten = l :=
  chunkedFuel_flatten b l.length l le_rfl

theorem length_batched_encode (b : Nat) (enc : List α → List (List ℚ)) (names : List α)
    (henc : ∀ batch, (enc batch).length = batch.length) :
    (((chunked b names).map enc).flatten).length = names.length := by
  rw [List.length_flatten, List.map_map]
  have h : (chunked b names).map (List.length ∘ enc) = (chunked b names).map List.length :=
    List.map_congr_left (fun c _ => henc c)
  rw [h, ← List.length_flatten, chunked_flatten]

theorem biosyn_embed_sparse_length (enc : List (List Char) → List (List ℚ))
    (names : List (List Char)) (henc : ∀ batch, (enc batch).length = batch.length) :
    (biosyn_embed_sparse enc names).length = names.length :=
  length_batched_encode 1024 enc names henc

theorem biosyn_embed_dense_length (enc : List (List Char) → List (List ℚ))
    (names : List (List Char)) (henc : ∀ batch, (enc batch).length = batch.length) :
    (biosyn_embed_dense enc names).length = names.length :=
  length_batched_encode 1024 enc names henc

theorem splitPipes_eq_single : ∀ (l : List Char), containsSep l = false → splitPipes l = [l]
  | [], _ => rfl
  | [_], _ => rfl
  | a :: b :: rest, h => by
    rw [containsSep] at h
    simp only [Bool.or_eq_false_iff, decide_eq_false_iff_not] at h
    rw [splitPipes, if_neg h.1, splitPipes_eq_single (b :: rest) h.2]

theorem parseEntry_none_of_no_sep (l : List Char) (h : containsSep l = false) :
    parseEntry l = none := by
  rw [parseEntry, splitPipes_eq_single l h]

/-! ## Claim C4 -/

/-- Claim C4 (confirmed): for every dictionary file containing at least one
    non-blank line without the two-pipe separator, load_data fails (the
    two-variable unpacking of the split raises); no entry list is returned. -/
theorem c4_malformed_line_fails (lines : List (List Char)) (line : List Char)
    (hmem : line ∈ lines) (hnb : trimChars line ≠ [])
    (hsep : containsSep (trimChars line) = false) :
    load_data lines = none := by
  induction lines with
  | nil => cases hmem
  | cons l ls ih =>
    rcases List.mem_cons.mp hmem with rfl | h2
    · rw [load_data]
      simp only [if_neg hnb, parseEntry_none_of_no_sep _ hsep]
    · rw [load_data]
      by_cases hb : trimChars l = []
      · simp only [if_pos hb, ih h2]
      · cases hp : parseEntry (trimChars l) <;> simp [hb, hp, ih h2]

/-- Witness for C4 at a concrete two-line file whose second line lacks the
    separator. -/
theorem c4_malformed_line_fails_witness :
    "bad line".toList ∈ ["c1||ok".toList, "bad line".toList] ∧
    trimChars "bad line".toList ≠ [] ∧
    containsSep (trimChars "bad line".toList) = false ∧
    load_data ["c1||ok".toList, "bad line".toList] = none :=
  ⟨by decide, by decide, by decide,
    c4_malformed_line_fails _ "bad line".toList (by decide) (by decide) (by decide)⟩

/-! ## Claim C5 -/

theorem zipWith_zero_weight (r1 r2 : List ℚ) (h : r1.length = r2.length) :
    List.zipWith (fun s d => 0 * s + d) r1 r2 = r2 := by
  induction r1 generalizing r2 with
  | nil => cases r2 with
    | nil => rfl
    | cons b bs => simp at h
  | cons a as ih =>
    cases r2 with
    | nil => simp at h
    | cons b bs =>
      rw [List.zipWith_cons_cons, ih bs (by simpa using h), zero_mul, zero_add]

/-- Claim C5 (confirmed): hybrid fusion is the elementwise weighted sum
    sparse_weight * sparse + dense; with sparse weight 0 it returns exactly
    the dense score matrix on equal-shape inputs. -/
theorem c5_fusion_zero_weight (sparse_score_matrix dense_score_matrix : List (List ℚ))
    (hshape : List.Forall₂ (fun r1 r2 => r1.length = r2.length)
      sparse_score_matrix dense_score_matrix) :
    hybridScoreMatrix 0 sparse_score_matrix dense_score_matrix = dense_score_matrix := by
  induction hshape with
  | nil => rfl
  | cons h _ ih =>
    rw [hybridScoreMatrix] at ih ⊢
    simp only [List.zipWith_cons_cons, ih]
    rw [zipWith_zero_weight _ _ h]

/-- Witness for C5 at concrete equal-shape matrices. -/
theorem c5_fusion_zero_weight_witness :
    List.Forall₂ (fun r1 r2 => r1.length = r2.length)
      ([[5, 7], [9, 11]] : List (List ℚ)) ([[2, 3], [4, 6]] : List (List ℚ)) ∧
    hybridScoreMatrix 0 [[5, 7], [9, 11]] [[2, 3], [4, 6]] = [[2, 3], [4, 6]] :=
  ⟨by decide, c5_fusion_zero_weight _ _ (by decide)⟩

/-! ## Claim C6 -/

/-- Claim C6 counterexample: in the BioSyn path a present mean-centering
    vector is NOT subtracted before the score matrix is computed: at mention
    dense embedding [[1]], dictionary dense embedding [[1]] and mean vector
    [1], the pipeline scores are [[1]], while the scores of the centered
    embedding would be [[0]]. -/
theorem c6_counterexample :
    biosyn_predictions_score_matrix [[0]] [[1]] [[0]] [[1]] 0 (some [1]) = [[1]] ∧
    get_score_matrix (([[1]] : List (List ℚ)).map (fun row => vecSub row [1])) [[1]]
      = [[0]] ∧
    ([[1]] : List (List ℚ)) ≠ [[0]] := by
  refine ⟨?_, ?_, by norm_num⟩ <;>
    norm_num [biosyn_predictions_score_matrix, get_score_matrix, dot,
      hybridScoreMatrix, vecSub]

/-- Claim C6 amended: only the SapBert path subtracts a present mean vector
    from the mention dense embedding before scoring; the BioSyn path accepts
    the vector and ignores it (its output does not depend on it). -/
theorem c6_amended (mention_sparse_embeds mention_dense_embeds : List (List ℚ))
    (dict_sparse_embeds dict_dense_embeds : List (List ℚ))
    (sparse_weight : ℚ) (v : List ℚ) :
    sapbert_predictions_score_matrix mention_dense_embeds dict_dense_embeds (some v)
      = get_score_matrix (mention_dense_embeds.map (fun row => vecSub row v))
          dict_dense_embeds ∧
    biosyn_predictions_score_matrix mention_sparse_embeds mention_dense_embeds
        dict_sparse_embeds dict_dense_embeds sparse_weight (some v)
      = biosyn_predictions_score_matrix mention_sparse_embeds mention_dense_embeds
          dict_sparse_embeds dict_dense_embeds sparse_weight none :=
  ⟨rfl, rfl⟩

/-! ## Claim C8 -/

/-- Claim C8 counterexample: for the unsupported model_type "bert" the
    dispatch of HunNen.load returns None (after printing a message), which is
    not a raised unsupported-strategy error. -/
theorem c8_counterexample :
    hunNenLoadDispatch "bert".toList = .returnsNone ∧
    LoadDispatch.returnsNone ≠ LoadDispatch.raisesError := by decide

/-- Claim C8 amended: for every model_type whose lowercasing is neither
    biosyn nor sapbert, HunNen.load returns None; no error is raised and no
    default strategy is chosen. -/
theorem c8_amended (model_type : List Char)
    (h1 : lowerChars model_type ≠ "biosyn".toList)
    (h2 : lowerChars model_type ≠ "sapbert".toList) :
    hunNenLoadDispatch model_type = .returnsNone := by
  rw [hunNenLoadDispatch, if_neg h1, if_neg h2]

/-- Witness for the amended C8 at the concrete model_type "xyz". -/
theorem c8_amended_witness :
    lowerChars "xyz".toList ≠ "biosyn".toList ∧
    lowerChars "xyz".toList ≠ "sapbert".toList ∧
    hunNenLoadDispatch "xyz".toList = .returnsNone :=
  ⟨by decide, by decide, c8_amended "xyz".toList (by decide) (by decide)⟩

/-! ## Claims C1, C2, C3 on the top-k selection -/

theorem retrieve_candidate_row_some (row : List ℚ) (topk : Int)
    (hlo : -(row.length : Int) < topk) (hhi : topk ≤ (row.length : Int)) :
    ∃ idxs scores, retrieve_candidate_row row topk = some (idxs, scores) ∧
      idxs.length = row.length - numpySliceStart row.length (-topk) ∧
      scores.length = row.length - numpySliceStart row.length (-topk) := by
  simp only [retrieve_candidate_row]
  rw [if_neg (by omega)]
  refine ⟨_, _, rfl, ?_, ?_⟩
  · simp [List.length_map, length_argsortDesc, List.length_drop, length_argsortAsc]
  · simp [length_sortValsAsc, List.length_map, List.length_drop, length_argsortAsc]

theorem numpySliceStart_sub (d : Nat) (k : Int) (hlo : -(d : Int) < k) (hhi : k ≤ d) :
    (d - numpySliceStart d (-k) : Nat) = (if 0 < k then k else (d : Int) + k).toNat := by
  by_cases hk : 0 < k
  · rw [numpySliceStart, if_pos (by omega), if_pos hk]
    omega
  · rw [numpySliceStart, if_neg (by omega), if_pos (by omega), if_neg hk]
    omega

/-- Claim C1 (evaluation at the failing input): at score matrix [[1, 2, 3]]
    with topk = 2 the code returns the indices [2, 1] (descending by score)
    but the scores [2, 3], which are in ascending order, so the first
    returned score (2) is not the score of the first returned index
    (row entry 2, whose score is 3). -/
theorem c1_eval_at_failing_input :
    retrieve_candidate [[1, 2, 3]] 2 = some [([2, 1], [2, 3])] ∧
    ¬ List.Sorted (· ≥ ·) ([2, 3] : List ℚ) ∧
    ([1, 2, 3] : List ℚ).getD 2 0 = 3 ∧ ((2 : ℚ) ≠ 3) := by decide

/-- Claim C2 (evaluation at the failing input): at score matrix [[1, 2]]
    with topk = 2 and the default batch size 128, the chunked cuda path
    returns scores [2, 1] (descending) while retrieve_candidate returns
    scores [1, 2] (ascending); the two outputs differ. -/
theorem c2_eval_at_failing_input :
    retrieve_candidate [[1, 2]] 2 = some [([1, 0], [1, 2])] ∧
    retrieve_candidate_cuda [[1, 2]] 2 128 = [([1, 0], [2, 1])] ∧
    ([([1, 0], [1, 2])] : List (List Nat × List ℚ)) ≠ [([1, 0], [2, 1])] := by decide

/-- Claim C3 counterexample: with topk = 0 the selection does not fail: it
    silently returns every dictionary entry of the row (the numpy slice
    [-0:] is the whole row), here all 3 candidates. -/
theorem c3_counterexample :
    retrieve_candidate [[1, 2, 3]] 0 = some [([2, 1, 0], [1, 2, 3])] ∧
    retrieve_candidate [[1, 2, 3]] 0 ≠ none := by decide

/-- Claim C3 amended: the top-k selection raises only when the argpartition
    index is out of bounds, i.e. when topk exceeds the row length d or
    topk is at most -d; for topk = 0 it silently returns all d candidates
    per row, for negative topk above -d it silently returns d + topk
    candidates, and for 1 <= topk <= d it returns topk candidates. -/
theorem c3_amended (score_matrix : List (List ℚ)) (d : Nat) (topk : Int)
    (hne : score_matrix ≠ [])
    (hrow : ∀ row ∈ score_matrix, row.length = d) :
    ((d : Int) < topk ∨ topk ≤ -(d : Int) →
      retrieve_candidate score_matrix topk = none) ∧
    (-(d : Int) < topk → topk ≤ (d : Int) →
      ∃ rs, retrieve_candidate score_matrix topk = some rs ∧
        rs.length = score_matrix.length ∧
        ∀ p ∈ rs,
          p.1.length = (if 0 < topk then topk else (d : Int) + topk).toNat ∧
          p.2.length = (if 0 < topk then topk else (d : Int) + topk).toNat) := by
  constructor
  · intro hk
    obtain ⟨r, hr⟩ := List.exists_mem_of_ne_nil score_matrix hne
    apply mapRows_none _ _ r hr
    simp only [retrieve_candidate_row]
    rw [if_pos]
    rw [hrow r hr]
    omega
  · intro h1 h2
    apply mapRows_some
    intro row hmem
    obtain ⟨idxs, scores, heq, hl1, hl2⟩ :=
      retrieve_candidate_row_some row topk (by rw [hrow row hmem]; omega)
        (by rw [hrow row hmem]; omega)
    refine ⟨(idxs, scores), heq, ?_, ?_⟩
    · rw [hl1, hrow row hmem, numpySliceStart_sub d topk h1 h2]
    · rw [hl2, hrow row hmem, numpySliceStart_sub d topk h1 h2]

/-- Witness for the amended C3: at the 1 x 3 matrix [[1, 2, 3]], topk = 4
    raises, while topk = -1 silently yields one row of 2 candidates. -/
theorem c3_amended_witness :
    retrieve_candidate [[(1 : ℚ), 2, 3]] 4 = none ∧
    (∃ rs, retrieve_candidate [[(1 : ℚ), 2, 3]] (-1) = some rs ∧
      rs.length = 1 ∧ ∀ p ∈ rs, p.1.length = 2 ∧ p.2.length = 2) := by
  constructor
  · exact (c3_amended [[(1 : ℚ), 2, 3]] 3 4 (by decide) (by decide)).1 (by decide)
  · obtain ⟨rs, hrs, hlen, hp⟩ :=
      (c3_amended [[(1 : ℚ), 2, 3]] 3 (-1) (by decide) (by decide)).2
        (by decide) (by decide)
    refine ⟨rs, hrs, by simpa using hlen, ?_⟩
    intro p hmem
    simpa using hp p hmem

/-! ## Claim C7 -/

/-- Claim C7 counterexample: building the cache from the one-line dictionary
    c1||A with mean_centering requested yields the mean vector [2] at build
    time, but the persisted entry holds only the three embedding fields, so
    reloading from that entry yields no mean vector (None), not [2]. -/
theorem c7_counterexample :
    (cache_or_load_dictionary none ["c1||A".toList]
      (fun ns => ns.map (fun _ => [0])) (fun ns => ns.map (fun _ => [2])) true).map
      (·.tgt_space_mean_vec) = some (some [2]) ∧
    (cache_or_load_dictionary none ["c1||A".toList]
      (fun ns => ns.map (fun _ => [0])) (fun ns => ns.map (fun _ => [2])) true).bind
      (·.persisted) = some ⟨[("a".toList, "c1".toList)], [[0]], [[0]]⟩ ∧
    (cache_or_load_dictionary (some ⟨[("a".toList, "c1".toList)], [[0]], [[0]]⟩)
      ["c1||A".toList] (fun ns => ns.map (fun _ => [0]))
      (fun ns => ns.map (fun _ => [2])) true).map (·.tgt_space_mean_vec)
      = some none ∧
    (none : Option (List ℚ)) ≠ some [2] := by
  have h : load_data ["c1||A".toList] = some [("a".toList, "c1".toList)] := by decide
  refine ⟨?_, ?_, by decide, by decide⟩ <;>
  · rw [cache_or_load_dictionary, h]
    norm_num [columnMean, columnSum, vecSub]

/-- Claim C7 amended: the persisted cache entry contains only the dictionary
    and the two embedding matrices; the mean-centering vector is returned at
    build time but never persisted, and every cache-hit load returns None for
    it, so a later load does not recover the mean vector. -/
theorem c7_amended (c : CachedDictionaryEntry) (lines : List (List Char))
    (embed_sparse embed_dense : List (List Char) → List (List ℚ))
    (mean_centering : Bool) (data : List (List Char × List Char))
    (hload : load_data lines = some data) :
    (cache_or_load_dictionary (some c) lines embed_sparse embed_dense
      mean_centering).map (·.tgt_space_mean_vec) = some none ∧
    ∃ r, cache_or_load_dictionary none lines embed_sparse embed_dense true
        = some r ∧
      r.tgt_space_mean_vec = some (columnMean (embed_dense (data.map (·.1)))) ∧
      r.persisted = some ⟨r.dictionary, r.dict_sparse_embeds, r.dict_dense_embeds⟩ ∧
      (cache_or_load_dictionary
        (some ⟨r.dictionary, r.dict_sparse_embeds, r.dict_dense_embeds⟩)
        lines embed_sparse embed_dense true).map (·.tgt_space_mean_vec)
        = some none := by
  refine ⟨rfl, ?_⟩
  rw [cache_or_load_dictionary, hload]
  exact ⟨_, rfl, rfl, rfl, rfl⟩

/-- Witness for the amended C7 at a concrete one-line dictionary. -/
theorem c7_amended_witness :
    load_data ["c9||B".toList] = some [("b".toList, "c9".toList)] ∧
    ((cache_or_load_dictionary (some ⟨[], [], []⟩) ["c9||B".toList]
        (fun ns => ns.map (fun _ => [1])) (fun ns => ns.map (fun _ => [4]))
        false).map (·.tgt_space_mean_vec) = some none ∧
      ∃ r, cache_or_load_dictionary none ["c9||B".toList]
          (fun ns => ns.map (fun _ => [1])) (fun ns => ns.map (fun _ => [4])) true
          = some r ∧
        r.tgt_space_mean_vec = some (columnMean
          ((fun ns => ns.map (fun _ => ([4] : List ℚ)))
            ([("b".toList, "c9".toList)].map (·.1)))) ∧
        r.persisted = some ⟨r.dictionary, r.dict_sparse_embeds, r.dict_dense_embeds⟩ ∧
        (cache_or_load_dictionary
          (some ⟨r.dictionary, r.dict_sparse_embeds, r.dict_dense_embeds⟩)
          ["c9||B".toList] (fun ns => ns.map (fun _ => [1]))
          (fun ns => ns.map (fun _ => [4])) true).map (·.tgt_space_mean_vec)
          = some none) :=
  ⟨by decide, c7_amended ⟨[], [], []⟩ _ _ _ false _ (by decide)⟩

/-! ## Claim C9 -/

theorem load_data_eq_filterMap (lines : List (List Char))
    (data : List (List Char × List Char)) (h : load_data lines = some data) :
    data = lines.filterMap (fun line =>
      if trimChars line = [] then none else parseEntry (trimChars line)) := by
  induction lines generalizing data with
  | nil =>
    rw [load_data] at h
    cases h
    rfl
  | cons l ls ih =>
    rw [load_data] at h
    by_cases hb : trimChars l = []
    · rw [if_pos hb] at h
      simp only [List.filterMap_cons, if_pos hb]
      exact ih data h
    · rw [if_neg hb] at h
      cases hp : parseEntry (trimChars l) with
      | none => rw [hp] at h; cases h
      | some e =>
        rw [hp] at h
        obtain ⟨ds, hds, hdata⟩ := Option.map_eq_some'.mp h
        simp only [List.filterMap_cons, if_neg hb, hp]
        rw [← hdata, ih ds hds]

theorem toLower_ofNat_fixed (n : Nat) (h1 : 65 ≤ n) (h2 : n ≤ 90) :
    Char.toLower (Char.ofNat (n + 32)) = Char.ofNat (n + 32) := by
  interval_cases n <;> decide

theorem toLower_idem (c : Char) : c.toLower.toLower = c.toLower := by
  by_cases h : 65 ≤ c.toNat ∧ c.toNat ≤ 90
  · have hl : c.toLower = Char.ofNat (c.toNat + 32) := by
      simp only [Char.toLower]
      rw [if_pos (by simpa [ge_iff_le] using h)]
    rw [hl]
    exact toLower_ofNat_fixed c.toNat h.1 h.2
  · have hl : c.toLower = c := by
      simp only [Char.toLower]
      rw [if_neg (by simpa [ge_iff_le] using h)]
    rw [hl]
    exact hl

theorem parseEntry_name_lower (l : List Char) (e : List Char × List Char)
    (h : parseEntry l = some e) : e.1 = lowerChars e.1 := by
  rw [parseEntry] at h
  split at h
  · cases h
    show List.map Char.toLower _ = lowerChars (List.map Char.toLower _)
    rw [lowerChars, List.map_map]
    exact List.map_congr_left (fun a _ => (toLower_idem a).symm)
  · cases h

/-- Claim C9 (confirmed): on a cache-miss build, load_data skips exactly the
    blank lines, keeps the remaining entries in file order with lowercased
    names, and the returned dictionary aligns with the embedding matrices:
    both the dense and the sparse embedding row counts equal the dictionary
    length whenever each encoder returns one row per input name. -/
theorem c9_build_invariants (lines : List (List Char))
    (sparse_encoder dense_encoder : List (List Char) → List (List ℚ))
    (data : List (List Char × List Char))
    (hs : ∀ batch, (sparse_encoder batch).length = batch.length)
    (hd : ∀ batch, (dense_encoder batch).length = batch.length)
    (hload : load_data lines = some data) :
    ∃ r, cache_or_load_dictionary none lines (biosyn_embed_sparse sparse_encoder)
        (biosyn_embed_dense dense_encoder) false = some r ∧
      r.dictionary = data ∧
      data = lines.filterMap (fun line =>
        if trimChars line = [] then none else parseEntry (trimChars line)) ∧
      (∀ e ∈ r.dictionary, e.1 = lowerChars e.1) ∧
      r.dict_dense_embeds.length = r.dictionary.length ∧
      r.dict_sparse_embeds.length = r.dictionary.length := by
  have hmain : cache_or_load_dictionary none lines
      (biosyn_embed_sparse sparse_encoder) (biosyn_embed_dense dense_encoder) false
      = some ⟨data, biosyn_embed_sparse sparse_encoder (data.map (·.1)),
          biosyn_embed_dense dense_encoder (data.map (·.1)), none,
          some ⟨data, biosyn_embed_sparse sparse_encoder (data.map (·.1)),
            biosyn_embed_dense dense_encoder (data.map (·.1))⟩⟩ := by
    rw [cache_or_load_dictionary, hload]
    rfl
  refine ⟨_, hmain, rfl, load_data_eq_filterMap lines data hload, ?_, ?_, ?_⟩
  · intro e he
    have hmem : e ∈ lines.filterMap (fun line =>
        if trimChars line = [] then none else parseEntry (trimChars line)) := by
      rw [← load_data_eq_filterMap lines data hload]
      exact he
    obtain ⟨line, _, hfe⟩ := List.mem_filterMap.mp hmem
    by_cases hb : trimChars line = []
    · rw [if_pos hb] at hfe
      cases hfe
    · rw [if_neg hb] at hfe
      exact parseEntry_name_lower _ e hfe
  · show (biosyn_embed_dense dense_encoder (data.map (·.1))).length = data.length
    rw [biosyn_embed_dense_length _ _ hd, List.length_map]
  · show (biosyn_embed_sparse sparse_encoder (data.map (·.1))).length = data.length
    rw [biosyn_embed_sparse_length _ _ hs, List.length_map]

/-- Witness for C9 at a concrete three-line dictionary file with one blank
    line and constant per-name encoders. -/
theorem c9_build_invariants_witness :
    load_data ["c1||Ab".toList, "".toList, "c2||X".toList]
      = some [("ab".toList, "c1".toList), ("x".toList, "c2".toList)] ∧
    (∃ r, cache_or_load_dictionary none ["c1||Ab".toList, "".toList, "c2||X".toList]
        (biosyn_embed_sparse (fun ns => ns.map (fun _ => [0])))
        (biosyn_embed_dense (fun ns => ns.map (fun _ => [3]))) false = some r ∧
      r.dictionary = [("ab".toList, "c1".toList), ("x".toList, "c2".toList)] ∧
      [("ab".toList, "c1".toList), ("x".toList, "c2".toList)]
        = (["c1||Ab".toList, "".toList, "c2||X".toList]).filterMap (fun line =>
            if trimChars line = [] then none else parseEntry (trimChars line)) ∧
      (∀ e ∈ r.dictionary, e.1 = lowerChars e.1) ∧
      r.dict_dense_embeds.length = r.dictionary.length ∧
      r.dict_sparse_embeds.length = r.dictionary.length) :=
  ⟨by decide,
    c9_build_invariants _ _ _ _ (fun batch => by simp) (fun batch => by simp)
      (by decide)⟩

/-! ## Claim C10 -/

theorem foldl_min_le (xs : List ℚ) :
    ∀ (x y : ℚ), y ∈ x :: xs → List.foldl min x xs ≤ y := by
  induction xs with
  | nil =>
    intro x y hy
    rw [List.mem_singleton] at hy
    simp [hy]
  | cons a as ih =>
    intro x y hy
    rw [List.foldl_cons]
    rcases List.mem_cons.mp hy with h | hy2
    · rw [h]
      exact le_trans (ih (min x a) (min x a) (.head _)) (min_le_left _ _)
    · rcases List.mem_cons.mp hy2 with h2 | hy3
      · rw [h2]
        exact le_trans (ih (min x a) (min x a) (.head _)) (min_le_right _ _)
      · exact ih (min x a) y (.tail _ hy3)

theorem le_foldl_max (xs : List ℚ) :
    ∀ (x y : ℚ), y ∈ x :: xs → y ≤ List.foldl max x xs := by
  induction xs with
  | nil =>
    intro x y hy
    rw [List.mem_singleton] at hy
    simp [hy]
  | cons a as ih =>
    intro x y hy
    rw [List.foldl_cons]
    rcases List.mem_cons.mp hy with h | hy2
    · rw [h]
      exact le_trans (le_max_left _ _) (ih (max x a) (max x a) (.head _))
    · rcases List.mem_cons.mp hy2 with h2 | hy3
      · rw [h2]
        exact le_trans (le_max_right _ _) (ih (max x a) (max x a) (.head _))
      · exact ih (max x a) y (.tail _ hy3)

theorem foldl_min_const (xs : List ℚ) :
    ∀ (x : ℚ), (∀ y ∈ xs, y = x) → List.foldl min x xs = x := by
  induction xs with
  | nil => intro x _; rfl
  | cons a as ih =>
    intro x h
    rw [List.foldl_cons, h a (.head _), min_self]
    exact ih x (fun y hy => h y (.tail _ hy))

theorem foldl_max_const (xs : List ℚ) :
    ∀ (x : ℚ), (∀ y ∈ xs, y = x) → List.foldl max x xs = x := by
  induction xs with
  | nil => intro x _; rfl
  | cons a as ih =>
    intro x h
    rw [List.foldl_cons, h a (.head _), max_self]
    exact ih x (fun y hy => h y (.tail _ hy))

/-- Claim C10 (confirmed): the min-max branch of SapBert.get_score_matrix
    divides by max - min with no guard, so on any nonempty score matrix
    whose entries are all equal the denominator is zero and the result is
    undefined (modelled none); when the global min and max differ, the
    result is defined and every normalized entry lies in [0, 1]. -/
theorem c10_minmax_normalisation (query_embeds dict_embeds : List (List ℚ)) :
    ((get_score_matrix query_embeds dict_embeds).flatten ≠ [] →
      (∀ x ∈ (get_score_matrix query_embeds dict_embeds).flatten,
       ∀ y ∈ (get_score_matrix query_embeds dict_embeds).flatten, x = y) →
      sapbert_get_score_matrix query_embeds dict_embeds true = none) ∧
    (∀ mn mx, matrixMin (get_score_matrix query_embeds dict_embeds) = some mn →
      matrixMax (get_score_matrix query_embeds dict_embeds) = some mx → mn ≠ mx →
      ∃ r, sapbert_get_score_matrix query_embeds dict_embeds true = some r ∧
        ∀ row ∈ r, ∀ x ∈ row, 0 ≤ x ∧ x ≤ 1) := by
  constructor
  · intro hne hall
    cases hflat : (get_score_matrix query_embeds dict_embeds).flatten with
    | nil => exact absurd hflat hne
    | cons z zs =>
      have hzs : ∀ y ∈ zs, y = z := fun y hy =>
        hall y (by rw [hflat]; exact .tail _ hy) z (by rw [hflat]; exact .head _)
      have hmin : matrixMin (get_score_matrix query_embeds dict_embeds) = some z := by
        rw [matrixMin, hflat]
        exact congrArg some (foldl_min_const zs z hzs)
      have hmax : matrixMax (get_score_matrix query_embeds dict_embeds) = some z := by
        rw [matrixMax, hflat]
        exact congrArg some (foldl_max_const zs z hzs)
      rw [sapbert_get_score_matrix]
      rw [if_pos rfl, hmin, hmax]
      simp only [Option.some_bind]
      rw [if_pos (sub_self z)]
  · intro mn mx hmn hmx hnemm
    obtain ⟨z, zs, hf⟩ : ∃ z zs,
        (get_score_matrix query_embeds dict_embeds).flatten = z :: zs := by
      cases hf : (get_score_matrix query_embeds dict_embeds).flatten with
      | nil => rw [matrixMin, hf] at hmn; exact Option.noConfusion hmn
      | cons z zs => exact ⟨z, zs, rfl⟩
    have hmn2 : mn = zs.foldl min z := by
      rw [matrixMin, hf] at hmn
      exact (Option.some.inj hmn).symm
    have hmx2 : mx = zs.foldl max z := by
      rw [matrixMax, hf] at hmx
      exact (Option.some.inj hmx).symm
    have hlo : ∀ x ∈ (get_score_matrix query_embeds dict_embeds).flatten, mn ≤ x := by
      rw [hf, hmn2]
      exact fun x hx => foldl_min_le zs z x hx
    have hhi : ∀ x ∈ (get_score_matrix query_embeds dict_embeds).flatten, x ≤ mx := by
      rw [hf, hmx2]
      exact fun x hx => le_foldl_max zs z x hx
    have hzmem : z ∈ (get_score_matrix query_embeds dict_embeds).flatten := by
      rw [hf]
      exact .head _
    have hlt : mn < mx := lt_of_le_of_ne (le_trans (hlo z hzmem) (hhi z hzmem)) hnemm
    rw [sapbert_get_score_matrix]
    rw [if_pos rfl, hmn, hmx]
    simp only [Option.some_bind]
    rw [if_neg (fun h0 => hnemm (sub_eq_zero.mp h0).symm)]
    refine ⟨_, rfl, ?_⟩
    intro row hrow x hx
    obtain ⟨row0, hrow0, rfl⟩ := List.mem_map.mp hrow
    obtain ⟨x0, hx0, rfl⟩ := List.mem_map.mp hx
    have hx0m : x0 ∈ (get_score_matrix query_embeds dict_embeds).flatten :=
      List.mem_flatten.mpr ⟨row0, hrow0, hx0⟩
    have h1 : mn ≤ x0 := hlo x0 hx0m
    have h2 : x0 ≤ mx := hhi x0 hx0m
    have hdpos : 0 < mx - mn := by linarith
    constructor
    · exact div_nonneg (by linarith) (le_of_lt hdpos)
    · rw [div_le_one hdpos]
      linarith

/-- Witness for C10: a constant 1 x 1 score matrix makes the normalisation
    undefined, while the 2 x 1 matrix with scores 0 and 1 normalizes into
    values inside [0, 1]. -/
theorem c10_minmax_normalisation_witness :
    (get_score_matrix [[1]] [[1]]).flatten ≠ [] ∧
    sapbert_get_score_matrix [[1]] [[1]] true = none ∧
    matrixMin (get_score_matrix [[0], [1]] [[1]]) = some 0 ∧
    matrixMax (get_score_matrix [[0], [1]] [[1]]) = some 1 ∧
    (∃ r, sapbert_get_score_matrix [[0], [1]] [[1]] true = some r ∧
      ∀ row ∈ r, ∀ x ∈ row, 0 ≤ x ∧ x ≤ 1) :=
  ⟨by norm_num [get_score_matrix, dot],
    (c10_minmax_normalisation [[1]] [[1]]).1
      (by norm_num [get_score_matrix, dot])
      (by norm_num [get_score_matrix, dot]),
    by norm_num [matrixMin, get_score_matrix, dot, min_def],
    by norm_num [matrixMax, get_score_matrix, dot, max_def],
    (c10_minmax_normalisation [[0], [1]] [[1]]).2 0 1
      (by norm_num [matrixMin, get_score_matrix, dot, min_def])
      (by norm_num [matrixMax, get_score_matrix, dot, max_def])
      (by norm_num)⟩

end BioNel
